import Mathlib

/-!
# Verification of the Kelly poet chatbot core (src/app.py)

Shallow embedding of the three core components of `app.py`:

* `extract_text_from_response` — pulls text out of a nested remote response;
* `local_poem_fallback`       — deterministic local poem generator;
* `kelly_reply` (as `kellyRun`) — the bounded retry/paraphrase controller.

Text is represented as `List Char` (`Str`).  The Python string primitives
used by the source (`str.strip`, `str.split`, `str.replace`, `"x" in s`,
`"\n".join`) are embedded as executable `py*` functions below, following
Python semantics (`strip`/`split` with no arguments act on ASCII whitespace;
`replace` substitutes all non-overlapping occurrences left to right and, for
an empty pattern, inserts the replacement around every character).

`html.unescape` is an external stdlib dependency, not repository code; it is
passed as an explicit `unescape : Str → Str` parameter.  On strings that
contain no ampersand `html.unescape` is the identity, so concrete evaluations
below instantiate `unescape := id` at ampersand-free inputs.

The remote generation call is an external collaborator; it is passed as an
oracle `Nat → Outcome` giving the outcome of each successive remote
invocation (a transport/provider exception, or a `Response` value).  The
`time.sleep` backoffs affect timing only, never control flow or data, and are
not modelled.
-/

/-- Text, represented as a list of characters. -/
abbrev Str := List Char

/-- Python ASCII whitespace, as recognised by `str.strip()`/`str.split()`. -/
def isPyWs (c : Char) : Bool :=
  c = ' ' || c = '\t' || c = '\n' || c = '\r' || c = '\x0b' || c = '\x0c'

/-- Python `s.strip()`: remove leading and trailing whitespace. -/
def pyStrip (s : Str) : Str :=
  ((s.dropWhile isPyWs).reverse.dropWhile isPyWs).reverse

/-- Worker for `pySplit`; `cur` holds the current (reversed) token. -/
def pySplitGo (cur : Str) : Str → List Str
  | [] => if cur = [] then [] else [cur.reverse]
  | c :: cs =>
    if isPyWs c then
      if cur = [] then pySplitGo [] cs else cur.reverse :: pySplitGo [] cs
    else pySplitGo (c :: cur) cs

/-- Python `s.split()`: maximal runs of non-whitespace characters. -/
def pySplit (s : Str) : List Str := pySplitGo [] s

/-- Python `s.replace("", rep)`: `rep` around every character. -/
def pyEmptyReplace (rep : Str) : Str → Str
  | [] => rep
  | c :: cs => rep ++ c :: pyEmptyReplace rep cs

/-- Worker for `pyReplace` with a non-empty pattern.  The fuel starts at the
length of the string, which suffices because every step consumes at least one
character; the fuel-exhausted branch is unreachable. -/
def pyReplaceGo (pat rep : Str) : Nat → Str → Str
  | _, [] => []
  | 0, s => s
  | fuel + 1, c :: cs =>
    if pat.isPrefixOf (c :: cs) then rep ++ pyReplaceGo pat rep fuel ((c :: cs).drop pat.length)
    else c :: pyReplaceGo pat rep fuel cs

/-- Python `s.replace(pat, rep)`: all non-overlapping occurrences,
left to right. -/
def pyReplace (pat rep s : Str) : Str :=
  if pat = [] then pyEmptyReplace rep s else pyReplaceGo pat rep s.length s

/-- Python `sep.join(l)`. -/
def pyJoin (sep : Str) : List Str → Str
  | [] => []
  | [x] => x
  | x :: y :: xs => x ++ sep ++ pyJoin sep (y :: xs)

/-- Python `pat in s`: substring containment. -/
def pySubstr (pat s : Str) : Bool :=
  (List.range (s.length + 1)).any (fun i => pat.isPrefixOf (s.drop i))

/-- Number of newline-separated lines of a string: one more than the number
of newline characters. -/
def lineCount (s : Str) : Nat := s.count '\n' + 1

/-! ## Constants of `app.py` -/

def DEFAULT_MODEL : Str := ("models/gemini-flash-latest").toList

def FALLBACK_MODEL : Str := ("models/gemini-2.5-pro").toList

/-- The triple-quoted persona preamble (leading and trailing newline as in
the source). -/
def KELLY_SYSTEM_PROMPT : Str :=
  ("\nYou are Kelly — an analytical poet and scientist. Answer in the form of a short poem.\nStyle: skeptical, analytical, professional. Include one or two practical suggestions or steps.\nKeep lines concise and clear; avoid hype and be evidence-minded.\n").toList

/-! ## `local_poem_fallback` -/

/-- The six fixed template lines, given the derived topic. -/
def poemLines (topic : Str) : List Str :=
  [ ("In careful lines I study ").toList ++ topic ++ (",").toList,
    ("A generator dreams, a critic critiques;").toList,
    ("Adversarial rhythm tunes model feats,").toList,
    ("Yet metrics warn where shortcuts meet.").toList,
    ("Practical: validate with held-out sets,").toList,
    ("Audit samples, and record your bets.").toList ]

/-- The sanitized prompt `p = html.unescape(prompt).strip()`. -/
def poem_p (unescape : Str → Str) (prompt : Str) : Str :=
  pyStrip (unescape prompt)

/-- The derived topic: strip the filler phrases `"pipeline of"`, `"Explain"`,
`"explain"` (in that order) from `p`, trim, and substitute `"this topic"`
when empty. -/
def poem_topic (unescape : Str → Str) (prompt : Str) : Str :=
  let topic0 :=
    pyStrip (pyReplace (("explain").toList) []
      (pyReplace (("Explain").toList) []
        (pyReplace (("pipeline of").toList) [] (poem_p unescape prompt))))
  if topic0 = [] then ("this topic").toList else topic0

/-- `local_poem_fallback(prompt)` from `app.py`, with `html.unescape`
abstracted as the `unescape` parameter. -/
def local_poem_fallback (unescape : Str → Str) (prompt : Str) : Str :=
  let lines := poemLines (poem_topic unescape prompt)
  let lines :=
    if (pySplit (poem_p unescape prompt)).length ≤ 3 then lines.take 4 else lines
  pyJoin (("\n").toList) lines

/-! ## Remote response data model and `extract_text_from_response` -/

/-- A content part; `text` is absent (`none`) or a string (possibly empty). -/
structure ResponsePart where
  text : Option Str
deriving DecidableEq, Repr

/-- A candidate content; an absent/empty `parts` field is the empty list. -/
structure Content where
  parts : List ResponsePart
deriving DecidableEq, Repr

/-- One remote candidate. -/
structure Candidate where
  content : Option Content
  finish_reason : Option Nat
deriving DecidableEq, Repr

/-- A remote response; an absent/empty `candidates` field is the empty
list. -/
structure Response where
  candidates : List Candidate
deriving DecidableEq, Repr

/-- The truthy (present and non-empty) part texts of one candidate, in part
order; a candidate with an absent content contributes nothing. -/
def candidate_texts (cand : Candidate) : List Str :=
  match cand.content with
  | none => []
  | some content =>
    content.parts.filterMap (fun part =>
      match part.text with
      | none => none
      | some t => if t = [] then none else some t)

/-- The truthy part texts of a candidate list, in candidate order then part
order. -/
def texts_of_candidates : List Candidate → List Str
  | [] => []
  | c :: cs => candidate_texts c ++ texts_of_candidates cs

/-- The `parts_out` list of `extract_text_from_response`. -/
def response_texts (r : Response) : List Str :=
  texts_of_candidates r.candidates

/-- `extract_text_from_response(response)` from `app.py`. -/
def extract_text_from_response (r : Response) : Option Str :=
  let parts_out := response_texts r
  if parts_out = [] then none
  else some (pyJoin (("\n").toList)
    ((parts_out.filter (fun p => pyStrip p ≠ [])).map pyStrip))

/-! ## `kelly_reply` -/

/-- Fixed generation parameters (exact decimal values). -/
structure GenerationConfig where
  temperature : ℚ
  max_output_tokens : ℕ
  top_p : ℚ
deriving DecidableEq, Repr

/-- The generation configuration sent with every attempt. -/
def generation_config : GenerationConfig :=
  { temperature := 0.45, max_output_tokens := 400, top_p := 0.9 }

/-- Outcome of one remote invocation: a transport/provider exception, or a
response value. -/
inductive Outcome where
  | exc : Outcome
  | ok : Response → Outcome
deriving DecidableEq, Repr

/-- The source tag of a reply: `"gemini"` (remote) or `"fallback"`. -/
inductive Source where
  | gemini : Source
  | fallback : Source
deriving DecidableEq, Repr

/-- What one attempt sends: the model identifier and the composed request
text. -/
structure CallRecord where
  model : Str
  sent : Str
deriving DecidableEq, Repr

/-- Loop state of `kelly_reply`: the `attempt` counter and the remote
invocations made so far (in order). -/
structure LoopState where
  attempt : Nat
  calls : List CallRecord
deriving DecidableEq, Repr

/-- The per-attempt decision of the loop body, after the remote invocation:
`some t` when the extracted text is truthy (the success return), `none` when
the attempt raised, extraction gave nothing, or extraction gave an empty
string (all of which continue to the next attempt; they differ only in the
sleep duration). -/
def stepResult (o : Outcome) : Option Str :=
  match o with
  | Outcome.exc => none
  | Outcome.ok r =>
    match extract_text_from_response r with
    | none => none
    | some t => if t = [] then none else some t

/-- The three fixed paraphrases, in order. -/
def paraphrases : List (Str → Str) :=
  [ fun q => q,
    fun q => q ++ (" Please explain step by step and include practical suggestions.").toList,
    fun q => ("In scientific terms, describe the stages of: ").toList ++ q ]

/-- The call record of one attempt: the composed outbound text is
`base_prompt.replace(prompt, q)` with `q` the paraphrased prompt. -/
def mkCall (prompt base m : Str) (f : Str → Str) : CallRecord :=
  { model := m, sent := pyReplace prompt (f prompt) base }

/-- The inner `for parap in paraphrases` loop of `kelly_reply` for one model.
Returns `Sum.inr` with the stripped text on success, else the final state;
`break` (attempt count exceeding the budget) leaves the inner loop only. -/
def runParaphrases (O : Nat → Outcome) (prompt base m : Str) (N : Nat) :
    List (Str → Str) → LoopState → LoopState ⊕ (Str × LoopState)
  | [], st => Sum.inl st
  | f :: fs, st =>
    let attempt := st.attempt + 1
    if N < attempt then Sum.inl { attempt := attempt, calls := st.calls }
    else
      let st' : LoopState :=
        { attempt := attempt, calls := st.calls ++ [mkCall prompt base m f] }
      match stepResult (O st.calls.length) with
      | some t => Sum.inr (pyStrip t, st')
      | none => runParaphrases O prompt base m N fs st'

/-- The outer `for mdl in model_attempts` loop of `kelly_reply`. -/
def runModels (O : Nat → Outcome) (prompt base : Str) (N : Nat) :
    List Str → LoopState → LoopState ⊕ (Str × LoopState)
  | [], st => Sum.inl st
  | m :: ms, st =>
    match runParaphrases O prompt base m N paraphrases st with
    | Sum.inl st' => runModels O prompt base N ms st'
    | Sum.inr res => Sum.inr res

/-- The model list of `kelly_reply`: the chosen model, plus
`"models/gemini-flash-latest"` when the chosen identifier does not contain
`"flash"`. -/
def model_attempts_of (model_name : Str) : List Str :=
  if pySubstr (("flash").toList) model_name then [model_name]
  else [model_name, ("models/gemini-flash-latest").toList]

/-- The composed template `f"{system}\n\nUser: {prompt}\nKelly:"` with
`system` the stripped persona preamble. -/
def base_prompt_of (prompt : Str) : Str :=
  pyStrip KELLY_SYSTEM_PROMPT ++ ("\n\nUser: ").toList ++ prompt ++ ("\nKelly:").toList

/-- The flattened attempt plan: for each model in order, the three
paraphrase attempts in order (model-major). -/
def attempt_plan_of : Str → Str → List Str → List CallRecord
  | _, _, [] => []
  | prompt, base, m :: ms =>
    paraphrases.map (mkCall prompt base m) ++ attempt_plan_of prompt base ms

/-- The attempt plan of `kelly_reply` for a prompt and preferred model. -/
def attempt_plan (prompt model_name : Str) : List CallRecord :=
  attempt_plan_of prompt (base_prompt_of prompt) (model_attempts_of model_name)

/-- The observable result of one `kelly_reply` run: the returned text and
source tag, plus the remote invocations performed. -/
structure RunResult where
  text : Str
  source : Source
  calls : List CallRecord
deriving DecidableEq, Repr

/-- `kelly_reply(prompt, model_name, max_retries)` from `app.py`,
instrumented with the list of remote invocations made. -/
def kellyRun (O : Nat → Outcome) (unescape : Str → Str)
    (prompt model_name : Str) (max_retries : Nat) : RunResult :=
  let base_prompt := base_prompt_of prompt
  match runModels O prompt base_prompt max_retries (model_attempts_of model_name)
      { attempt := 0, calls := [] } with
  | Sum.inr (t, st) => { text := t, source := Source.gemini, calls := st.calls }
  | Sum.inl st =>
    { text := local_poem_fallback unescape prompt, source := Source.fallback,
      calls := st.calls }

/-- The pair `(text, source)` that `kelly_reply` returns. -/
def kelly_reply (O : Nat → Outcome) (unescape : Str → Str)
    (prompt model_name : Str) (max_retries : Nat) : Str × Source :=
  ((kellyRun O unescape prompt model_name max_retries).text,
   (kellyRun O unescape prompt model_name max_retries).source)

/-! ## Concrete scenario values used in evaluations -/

/-- An oracle where every remote invocation raises a transport error. -/
def oracleExc : Nat → Outcome := fun _ => Outcome.exc

/-- A response carrying one candidate with one truthy text part. -/
def respGood : Response :=
  Response.mk
    [Candidate.mk (some (Content.mk
      [ResponsePart.mk (some (("A measured stanza").toList))])) (some 1)]

/-- An oracle where every remote invocation yields `respGood`. -/
def oracleOk : Nat → Outcome := fun _ => Outcome.ok respGood

/-- A response whose single part text is a non-empty whitespace-only
string. -/
def whitespaceResponse : Response :=
  Response.mk
    [Candidate.mk (some (Content.mk [ResponsePart.mk (some ((" ").toList))])) none]

/-- A response with several candidates and parts: text to trim, an empty
text, an absent text, an absent content, and a second truthy text. -/
def sampleResponse : Response :=
  Response.mk
    [ Candidate.mk (some (Content.mk
        [ ResponsePart.mk (some (("  First part  ").toList)),
          ResponsePart.mk (some ([])),
          ResponsePart.mk none ])) (some 1),
      Candidate.mk none none,
      Candidate.mk (some (Content.mk [ResponsePart.mk (some (("second").toList))])) none ]

/-! ## Lemmas about the string primitives -/

/-- Membership survives `pyStrip` backwards: stripping only removes
characters. -/
theorem mem_of_mem_pyStrip {c : Char} {s : Str} (h : c ∈ pyStrip s) : c ∈ s := by
  unfold pyStrip at h
  rw [List.mem_reverse] at h
  have h1 := (List.dropWhile_sublist isPyWs).mem h
  rw [List.mem_reverse] at h1
  exact (List.dropWhile_sublist isPyWs).mem h1

/-- `pyStrip` gives the empty string exactly when every character is
whitespace. -/
theorem pyStrip_eq_nil_iff {s : Str} : pyStrip s = [] ↔ ∀ c ∈ s, isPyWs c := by
  unfold pyStrip
  rw [List.reverse_eq_nil_iff, List.dropWhile_eq_nil_iff]
  constructor
  · intro h c hc
    by_cases hw : isPyWs c
    · exact hw
    · exfalso
      have hsplit := List.takeWhile_append_dropWhile (p := isPyWs) (l := s)
      rw [← hsplit] at hc
      rcases List.mem_append.1 hc with h1 | h1
      · exact hw (List.mem_takeWhile_imp h1)
      · exact hw (h c (List.mem_reverse.2 h1))
  · intro h c hc
    exact h c ((List.dropWhile_sublist isPyWs).mem (List.mem_reverse.1 hc))

/-- A non-empty stripped string contains a non-whitespace character. -/
theorem exists_not_ws_of_pyStrip_ne_nil {s : Str} (h : pyStrip s ≠ []) :
    ∃ c ∈ pyStrip s, isPyWs c = false := by
  have hne : (s.dropWhile isPyWs).reverse.dropWhile isPyWs ≠ [] := by
    intro hcon
    exact h (by unfold pyStrip; rw [hcon]; rfl)
  refine ⟨((s.dropWhile isPyWs).reverse.dropWhile isPyWs).head hne, ?_, ?_⟩
  · unfold pyStrip
    rw [List.mem_reverse]
    exact List.head_mem hne
  · exact List.head_dropWhile_not isPyWs _ hne

/-- A string containing a non-whitespace character strips to a non-empty
string. -/
theorem pyStrip_ne_nil_of_mem {s : Str} {c : Char} (hc : c ∈ s)
    (hw : isPyWs c = false) : pyStrip s ≠ [] := by
  intro h
  have := pyStrip_eq_nil_iff.1 h c hc
  rw [hw] at this
  exact Bool.noConfusion this

/-- Replacing a pattern by the empty string only removes characters
(worker version). -/
theorem mem_of_mem_pyReplaceGo_nil {pat : Str} {c : Char} :
    ∀ (fuel : Nat) (s : Str), c ∈ pyReplaceGo pat [] fuel s → c ∈ s := by
  intro fuel
  induction fuel with
  | zero =>
    intro s h
    cases s with
    | nil => simp [pyReplaceGo] at h
    | cons a as =>
      simp only [pyReplaceGo] at h
      exact h
  | succ n ih =>
    intro s h
    cases s with
    | nil => simp [pyReplaceGo] at h
    | cons a as =>
      rw [pyReplaceGo] at h
      by_cases hp : pat.isPrefixOf (a :: as)
      · rw [if_pos hp] at h
        simp only [List.nil_append] at h
        exact (List.drop_sublist pat.length (a :: as)).mem (ih _ h)
      · rw [if_neg hp] at h
        rcases List.mem_cons.1 h with h1 | h1
        · exact List.mem_cons.2 (Or.inl h1)
        · exact List.mem_cons.2 (Or.inr (ih _ h1))

/-- `s.replace(pat, "")` only removes characters. -/
theorem mem_of_mem_pyReplace_nil {pat s : Str} {c : Char}
    (h : c ∈ pyReplace pat [] s) : c ∈ s := by
  unfold pyReplace at h
  by_cases hp : pat = []
  · rw [if_pos hp] at h
    have he : ∀ t : Str, pyEmptyReplace [] t = t := by
      intro t
      induction t with
      | nil => rfl
      | cons a as iha => simp [pyEmptyReplace, iha]
    rwa [he] at h
  · rw [if_neg hp] at h
    exact mem_of_mem_pyReplaceGo_nil s.length s h

/-- A `pyJoin` whose first entry is non-empty is non-empty. -/
theorem pyJoin_ne_nil {sep : Str} {x : Str} {xs : List Str} (hx : x ≠ []) :
    pyJoin sep (x :: xs) ≠ [] := by
  cases xs with
  | nil => simpa [pyJoin] using hx
  | cons y ys =>
    simp only [pyJoin, ne_eq, List.append_assoc, List.append_eq_nil]
    intro hcon
    exact hx hcon.1

/-- Characters of the first entry belong to the join. -/
theorem mem_pyJoin_head {sep x : Str} {xs : List Str} {c : Char} (hc : c ∈ x) :
    c ∈ pyJoin sep (x :: xs) := by
  cases xs with
  | nil => simpa [pyJoin] using hc
  | cons y ys =>
    simp only [pyJoin, List.append_assoc, List.mem_append]
    exact Or.inl hc

/-! ## Lemmas about `local_poem_fallback` -/

/-- Unfolding equation for `poem_topic` with the `let` reduced. -/
theorem poem_topic_eq (unescape : Str → Str) (prompt : Str) :
    poem_topic unescape prompt =
      if pyStrip (pyReplace (("explain").toList) []
          (pyReplace (("Explain").toList) []
            (pyReplace (("pipeline of").toList) [] (poem_p unescape prompt)))) = []
      then ("this topic").toList
      else
        pyStrip (pyReplace (("explain").toList) []
          (pyReplace (("Explain").toList) []
            (pyReplace (("pipeline of").toList) [] (poem_p unescape prompt)))) := rfl

/-- When the unescaped prompt has no newline, the derived topic has no
newline either. -/
theorem poem_topic_count_nl {unescape : Str → Str} {prompt : Str}
    (h : ('\n' : Char) ∉ unescape prompt) :
    (poem_topic unescape prompt).count '\n' = 0 := by
  rw [poem_topic_eq]
  split
  · decide
  · rw [List.count_eq_zero]
    intro hmem
    exact h (mem_of_mem_pyStrip (mem_of_mem_pyReplace_nil
      (mem_of_mem_pyReplace_nil (mem_of_mem_pyReplace_nil
        (mem_of_mem_pyStrip hmem)))))

/-- Line count of the full six-line poem. -/
theorem lineCount_poem_six {topic : Str} (h : topic.count '\n' = 0) :
    lineCount (pyJoin (("\n").toList) (poemLines topic)) = 6 := by
  have c0 : ((("In careful lines I study ").toList : Str)).count '\n' = 0 := by decide
  have c1 : ((((",")).toList : Str)).count '\n' = 0 := by decide
  have c2 : ((("A generator dreams, a critic critiques;").toList : Str)).count '\n' = 0 := by
    decide
  have c3 : ((("Adversarial rhythm tunes model feats,").toList : Str)).count '\n' = 0 := by
    decide
  have c4 : ((("Yet metrics warn where shortcuts meet.").toList : Str)).count '\n' = 0 := by
    decide
  have c5 : ((("Practical: validate with held-out sets,").toList : Str)).count '\n' = 0 := by
    decide
  have c6 : ((("Audit samples, and record your bets.").toList : Str)).count '\n' = 0 := by
    decide
  have csep : ((("\n").toList : Str)).count '\n' = 1 := by decide
  simp only [poemLines, pyJoin, lineCount, List.count_append, c0, c1, c2, c3, c4, c5, c6,
    csep, h]

/-- Line count of the four-line truncation. -/
theorem lineCount_poem_four {topic : Str} (h : topic.count '\n' = 0) :
    lineCount (pyJoin (("\n").toList) ((poemLines topic).take 4)) = 4 := by
  have c0 : ((("In careful lines I study ").toList : Str)).count '\n' = 0 := by decide
  have c1 : ((((",")).toList : Str)).count '\n' = 0 := by decide
  have c2 : ((("A generator dreams, a critic critiques;").toList : Str)).count '\n' = 0 := by
    decide
  have c3 : ((("Adversarial rhythm tunes model feats,").toList : Str)).count '\n' = 0 := by
    decide
  have c4 : ((("Yet metrics warn where shortcuts meet.").toList : Str)).count '\n' = 0 := by
    decide
  have csep : ((("\n").toList : Str)).count '\n' = 1 := by decide
  simp only [poemLines, List.take, pyJoin, lineCount, List.count_append, c0, c1, c2, c3,
    c4, csep, h]

/-- The local fallback poem is never the empty string. -/
theorem local_poem_fallback_ne_nil (unescape : Str → Str) (prompt : Str) :
    local_poem_fallback unescape prompt ≠ [] := by
  unfold local_poem_fallback
  have hfirst : (("In careful lines I study ").toList : Str) ≠ [] := by decide
  have hl0 : ("In careful lines I study ").toList ++ poem_topic unescape prompt ++
      (",").toList ≠ [] := by
    intro hcon
    rw [List.append_assoc, List.append_eq_nil] at hcon
    exact hfirst hcon.1
  split
  · exact pyJoin_ne_nil hl0
  · exact pyJoin_ne_nil hl0

/-! ## Lemmas about `extract_text_from_response` -/

/-- The filterMap worker of `candidate_texts` yields `some t` exactly for a
truthy text `t`. -/
theorem part_text_truthy {p : ResponsePart} {t : Str} :
    (match p.text with
     | none => none
     | some u => if u = [] then none else some u) = some t ↔
      p.text = some t ∧ t ≠ [] := by
  cases hp : p.text with
  | none => simp
  | some u =>
    by_cases hu : u = []
    · subst hu
      simp
    · simp only [hu, if_neg, if_false, Option.some_inj]
      constructor
      · intro h
        subst h
        exact ⟨rfl, hu⟩
      · intro h
        exact h.1.symm ▸ rfl

/-- Membership in the texts of one candidate. -/
theorem mem_candidate_texts {t : Str} {c : Candidate} :
    t ∈ candidate_texts c ↔
      ∃ ct, c.content = some ct ∧ ∃ p ∈ ct.parts, p.text = some t ∧ t ≠ [] := by
  unfold candidate_texts
  cases hc : c.content with
  | none => simp
  | some ct =>
    simp only [List.mem_filterMap, Option.some_inj]
    constructor
    · rintro ⟨p, hp, hsome⟩
      exact ⟨ct, rfl, p, hp, part_text_truthy.1 hsome⟩
    · rintro ⟨ct', hct', p, hp, htext⟩
      subst hct'
      exact ⟨p, hp, part_text_truthy.2 htext⟩

/-- Membership in the texts of a candidate list. -/
theorem mem_texts_of_candidates {t : Str} :
    ∀ {l : List Candidate}, t ∈ texts_of_candidates l ↔ ∃ c ∈ l, t ∈ candidate_texts c := by
  intro l
  induction l with
  | nil => simp [texts_of_candidates]
  | cons c cs ih =>
    simp only [texts_of_candidates, List.mem_append, ih, List.mem_cons]
    constructor
    · rintro (h | ⟨c', hc', ht'⟩)
      · exact ⟨c, Or.inl rfl, h⟩
      · exact ⟨c', Or.inr hc', ht'⟩
    · rintro ⟨c', hc' | hc', ht'⟩
      · subst hc'
        exact Or.inl ht'
      · exact Or.inr ⟨c', hc', ht'⟩

/-- Every text collected from an all-whitespace response is all-whitespace
(and non-empty). -/
theorem response_texts_all_ws {r : Response}
    (h : ∀ c ∈ r.candidates, ∀ ct, c.content = some ct →
      ∀ p ∈ ct.parts, ∀ t, p.text = some t → ∀ ch ∈ t, isPyWs ch) :
    ∀ t ∈ response_texts r, ∀ ch ∈ t, isPyWs ch := by
  intro t ht
  rw [response_texts, mem_texts_of_candidates] at ht
  obtain ⟨c, hc, htc⟩ := ht
  rw [mem_candidate_texts] at htc
  obtain ⟨ct, hct, p, hp, htext, -⟩ := htc
  exact h c hc ct hct p hp t htext

/-- Unfolding equation for `extract_text_from_response` with the `let`
reduced. -/
theorem extract_eq (r : Response) :
    extract_text_from_response r =
      if response_texts r = [] then none
      else some (pyJoin (("\n").toList)
        (((response_texts r).filter (fun p => pyStrip p ≠ [])).map pyStrip)) := rfl

/-- On an all-whitespace response with at least one truthy part text, the
extractor returns the empty string: the filter by non-empty strip discards
every collected text and the join of nothing is `""`. -/
theorem extract_all_ws_some {r : Response}
    (h : ∀ t ∈ response_texts r, ∀ ch ∈ t, isPyWs ch)
    (h0 : response_texts r ≠ []) :
    extract_text_from_response r = some [] := by
  have hf : (response_texts r).filter (fun p => pyStrip p ≠ []) = [] :=
    List.filter_eq_nil_iff.2 (fun a ha => by
      simp [pyStrip_eq_nil_iff.2 (h a ha)])
  rw [extract_eq, if_neg h0, hf]
  simp [pyJoin]

/-- The extractor returns `none` exactly when no part text is truthy. -/
theorem extract_none_iff {r : Response} :
    extract_text_from_response r = none ↔ response_texts r = [] := by
  rw [extract_eq]
  by_cases h0 : response_texts r = []
  · simp [h0]
  · simp [h0]

/-- A truthy extracted text strips to a non-empty string. -/
theorem extract_some_strip_ne_nil {r : Response} {t : Str}
    (hx : extract_text_from_response r = some t) (ht : t ≠ []) : pyStrip t ≠ [] := by
  unfold extract_text_from_response at hx
  by_cases h0 : response_texts r = []
  · simp [h0] at hx
  · simp only [h0, if_neg, if_false, Option.some_inj] at hx
    cases hg : ((response_texts r).filter (fun p => pyStrip p ≠ [])).map pyStrip with
    | nil =>
      rw [hg] at hx
      exact absurd hx.symm (by simpa [pyJoin] using ht)
    | cons x xs =>
      rw [hg] at hx
      have hx_mem : x ∈ ((response_texts r).filter (fun p => pyStrip p ≠ [])).map pyStrip := by
        rw [hg]
        exact List.mem_cons_self x xs
      obtain ⟨p, hp_mem, hp_eq⟩ := List.mem_map.1 hx_mem
      have hp_ne : pyStrip p ≠ [] := by
        have := List.of_mem_filter hp_mem
        simpa using this
      obtain ⟨ch, hch_mem, hch_ws⟩ := exists_not_ws_of_pyStrip_ne_nil hp_ne
      have hch_x : ch ∈ x := hp_eq ▸ hch_mem
      have hch_t : ch ∈ t := by
        rw [← hx]
        exact mem_pyJoin_head hch_x
      exact pyStrip_ne_nil_of_mem hch_t hch_ws

/-! ## Characterization of the retry loop -/

/-- The three call records one model contributes to the attempt plan. -/
theorem attempt_plan_of_cons (prompt base m : Str) (ms : List Str) :
    attempt_plan_of prompt base (m :: ms) =
      paraphrases.map (mkCall prompt base m) ++ attempt_plan_of prompt base ms := rfl

/-- Each model contributes exactly three planned calls. -/
theorem length_para_calls (prompt base m : Str) :
    (paraphrases.map (mkCall prompt base m)).length = 3 := by
  simp [paraphrases]

/-- Inner loop, no success within the executed window: every visited
paraphrase makes one remote call (while the attempt budget lasts) and the
loop falls through, having consumed `min fs.length (N - st.attempt)` calls
in plan order. -/
theorem runPara_nofail (O : Nat → Outcome) (prompt base m : Str) (N : Nat) :
    ∀ (fs : List (Str → Str)) (st : LoopState),
      (∀ i, i < min fs.length (N - st.attempt) →
        stepResult (O (st.calls.length + i)) = none) →
      runParaphrases O prompt base m N fs st =
        Sum.inl (LoopState.mk
          (if fs.length ≤ N - st.attempt then st.attempt + fs.length
           else st.attempt + (N - st.attempt) + 1)
          (st.calls ++ (fs.map (mkCall prompt base m)).take (N - st.attempt))) := by
  intro fs
  induction fs with
  | nil =>
    intro st h
    simp [runParaphrases]
  | cons f fs ih =>
    intro st h
    by_cases hbr : N < st.attempt + 1
    · have hq : N - st.attempt = 0 := by omega
      simp only [runParaphrases, if_pos hbr, hq, List.take_zero, List.append_nil]
      simp
    · obtain ⟨q', hq⟩ : ∃ k, N - st.attempt = k + 1 := ⟨N - st.attempt - 1, by omega⟩
      have h0 : stepResult (O st.calls.length) = none := by
        have := h 0 (by rw [Nat.lt_min]; exact ⟨Nat.succ_pos _, by omega⟩)
        simpa using this
      have hrec : ∀ i, i < min fs.length
          (N - (LoopState.mk (st.attempt + 1)
            (st.calls ++ [mkCall prompt base m f])).attempt) →
          stepResult (O ((LoopState.mk (st.attempt + 1)
            (st.calls ++ [mkCall prompt base m f])).calls.length + i)) = none := by
        intro i hi
        simp only [List.length_append, List.length_singleton] at hi ⊢
        rw [Nat.lt_min] at hi
        have hmem : i + 1 < min (f :: fs).length (N - st.attempt) := by
          rw [Nat.lt_min, List.length_cons]
          omega
        have hstep := h (i + 1) hmem
        have heq : st.calls.length + 1 + i = st.calls.length + (i + 1) := by omega
        rw [heq]
        exact hstep
      simp only [runParaphrases, if_neg hbr, h0]
      rw [ih _ hrec]
      simp only [List.length_append, List.length_singleton]
      have hq2 : N - (st.attempt + 1) = q' := by omega
      rw [Sum.inl.injEq, LoopState.mk.injEq]
      constructor
      · rw [hq, hq2, List.length_cons]
        split_ifs <;> omega
      · rw [hq, hq2, List.map_cons, List.take_succ_cons, List.append_assoc,
          List.singleton_append]

/-- Inner loop, first success at (local) index `j` within the executed
window: the loop returns the stripped text at once, having made exactly
`j + 1` calls in plan order. -/
theorem runPara_success (O : Nat → Outcome) (prompt base m : Str) (N : Nat) :
    ∀ (fs : List (Str → Str)) (st : LoopState) (j : Nat) (t : Str),
      j < min fs.length (N - st.attempt) →
      (∀ i, i < j → stepResult (O (st.calls.length + i)) = none) →
      stepResult (O (st.calls.length + j)) = some t →
      runParaphrases O prompt base m N fs st =
        Sum.inr (pyStrip t, LoopState.mk (st.attempt + j + 1)
          (st.calls ++ (fs.map (mkCall prompt base m)).take (j + 1))) := by
  intro fs
  induction fs with
  | nil =>
    intro st j t hj _ _
    rw [Nat.lt_min] at hj
    exact absurd hj.1 (by simp)
  | cons f fs ih =>
    intro st j t hj hprev hsucc
    rw [Nat.lt_min] at hj
    have hbr : ¬ (N < st.attempt + 1) := by omega
    cases j with
    | zero =>
      rw [Nat.add_zero] at hsucc
      simp only [runParaphrases, if_neg hbr, hsucc, List.map_cons, List.take_succ_cons,
        List.take_zero, Nat.add_zero]
    | succ j' =>
      have h0 : stepResult (O st.calls.length) = none := by
        have := hprev 0 (Nat.succ_pos _)
        simpa using this
      have hjrec : j' < min fs.length
          (N - (LoopState.mk (st.attempt + 1)
            (st.calls ++ [mkCall prompt base m f])).attempt) := by
        simp only [Nat.lt_min]
        rw [List.length_cons] at hj
        omega
      have hprevrec : ∀ i, i < j' →
          stepResult (O ((LoopState.mk (st.attempt + 1)
            (st.calls ++ [mkCall prompt base m f])).calls.length + i)) = none := by
        intro i hi
        simp only [List.length_append, List.length_singleton]
        have hstep := hprev (i + 1) (by omega)
        have heq : st.calls.length + 1 + i = st.calls.length + (i + 1) := by omega
        rw [heq]
        exact hstep
      have hsuccrec : stepResult (O ((LoopState.mk (st.attempt + 1)
          (st.calls ++ [mkCall prompt base m f])).calls.length + j')) = some t := by
        simp only [List.length_append, List.length_singleton]
        have heq : st.calls.length + 1 + j' = st.calls.length + (j' + 1) := by omega
        rw [heq]
        exact hsucc
      simp only [runParaphrases, if_neg hbr, h0]
      rw [ih _ j' t hjrec hprevrec hsuccrec]
      simp only [List.length_append, List.length_singleton]
      rw [Sum.inr.injEq, Prod.mk.injEq, LoopState.mk.injEq]
      refine ⟨rfl, by omega, ?_⟩
      rw [List.map_cons, List.take_succ_cons, List.append_assoc, List.singleton_append]

/-- Outer loop, no success within the executed window: the executed calls
are the first `min plan.length (N - st.attempt)` planned calls, in order,
and the final attempt counter has consumed the corresponding budget. -/
theorem runModels_nofail (O : Nat → Outcome) (prompt base : Str) (N : Nat) :
    ∀ (ms : List Str) (st : LoopState),
      (∀ i, i < min (attempt_plan_of prompt base ms).length (N - st.attempt) →
        stepResult (O (st.calls.length + i)) = none) →
      ∃ a, runModels O prompt base N ms st =
          Sum.inl (LoopState.mk a
            (st.calls ++ (attempt_plan_of prompt base ms).take (N - st.attempt))) ∧
        N - a = (N - st.attempt) - (attempt_plan_of prompt base ms).length := by
  intro ms
  induction ms with
  | nil =>
    intro st h
    refine ⟨st.attempt, ?_, ?_⟩
    · simp [runModels, attempt_plan_of]
    · simp [attempt_plan_of]
  | cons m ms ih =>
    intro st h
    have hplanlen : (attempt_plan_of prompt base (m :: ms)).length =
        3 + (attempt_plan_of prompt base ms).length := by
      rw [attempt_plan_of_cons, List.length_append, length_para_calls]
    have hparalen : (paraphrases).length = 3 := by simp [paraphrases]
    have hinnerhyp : ∀ i, i < min (paraphrases).length (N - st.attempt) →
        stepResult (O (st.calls.length + i)) = none := by
      intro i hi
      apply h
      rw [Nat.lt_min] at hi ⊢
      rw [hparalen] at hi
      exact ⟨by rw [hplanlen]; omega, hi.2⟩
    have hinner := runPara_nofail O prompt base m N paraphrases st hinnerhyp
    rw [hparalen] at hinner
    by_cases hc : 3 ≤ N - st.attempt
    · rw [if_pos hc] at hinner
      have htake : ((paraphrases).map (mkCall prompt base m)).take (N - st.attempt) =
          (paraphrases).map (mkCall prompt base m) :=
        List.take_of_length_le (by rw [List.length_map, hparalen]; exact hc)
      rw [htake] at hinner
      have hihhyp : ∀ i, i < min (attempt_plan_of prompt base ms).length
          (N - (st.attempt + 3)) →
          stepResult (O ((st.calls ++ (paraphrases).map (mkCall prompt base m)).length + i))
            = none := by
        intro i hi
        rw [List.length_append, List.length_map, hparalen]
        rw [Nat.lt_min] at hi
        have hstep := h (3 + i) (by rw [Nat.lt_min, hplanlen]; omega)
        have heqi : st.calls.length + 3 + i = st.calls.length + (3 + i) := by omega
        rw [heqi]
        exact hstep
      obtain ⟨a, heq, hsub⟩ := ih (LoopState.mk (st.attempt + 3)
          (st.calls ++ (paraphrases).map (mkCall prompt base m))) hihhyp
      dsimp only at heq hsub
      refine ⟨a, ?_, ?_⟩
      · simp only [runModels, hinner]
        rw [heq]
        rw [Sum.inl.injEq, LoopState.mk.injEq]
        refine ⟨rfl, ?_⟩
        rw [attempt_plan_of_cons, List.take_append_eq_append_take, List.length_map,
          hparalen, htake, List.append_assoc]
        have heq3 : N - (st.attempt + 3) = N - st.attempt - 3 := by omega
        rw [heq3]
      · rw [hplanlen]
        omega
    · rw [if_neg hc] at hinner
      have hihhyp : ∀ i, i < min (attempt_plan_of prompt base ms).length
          (N - (st.attempt + (N - st.attempt) + 1)) →
          stepResult (O ((st.calls ++
            ((paraphrases).map (mkCall prompt base m)).take (N - st.attempt)).length + i))
            = none := by
        intro i hi
        rw [Nat.lt_min] at hi
        exact absurd hi.2 (by omega)
      obtain ⟨a, heq, hsub⟩ := ih (LoopState.mk (st.attempt + (N - st.attempt) + 1)
          (st.calls ++ ((paraphrases).map (mkCall prompt base m)).take (N - st.attempt)))
          hihhyp
      dsimp only at heq hsub
      refine ⟨a, ?_, ?_⟩
      · simp only [runModels, hinner]
        rw [heq]
        rw [Sum.inl.injEq, LoopState.mk.injEq]
        refine ⟨rfl, ?_⟩
        have h0 : N - (st.attempt + (N - st.attempt) + 1) = 0 := by omega
        have h3 : N - st.attempt - 3 = 0 := by omega
        rw [h0, attempt_plan_of_cons, List.take_append_eq_append_take, List.length_map,
          hparalen, h3]
        simp
      · rw [hplanlen]
        omega

/-- Outer loop, first success at flat plan index `j` within the executed
window: the run returns the stripped text, tagged from the oracle, after
exactly `j + 1` calls, which are the first `j + 1` planned calls. -/
theorem runModels_success (O : Nat → Outcome) (prompt base : Str) (N : Nat) :
    ∀ (ms : List Str) (st : LoopState) (j : Nat) (t : Str),
      j < min (attempt_plan_of prompt base ms).length (N - st.attempt) →
      (∀ i, i < j → stepResult (O (st.calls.length + i)) = none) →
      stepResult (O (st.calls.length + j)) = some t →
      ∃ a, runModels O prompt base N ms st =
          Sum.inr (pyStrip t, LoopState.mk a
            (st.calls ++ (attempt_plan_of prompt base ms).take (j + 1))) := by
  intro ms
  induction ms with
  | nil =>
    intro st j t hj _ _
    rw [Nat.lt_min] at hj
    exact absurd hj.1 (by simp [attempt_plan_of])
  | cons m ms ih =>
    intro st j t hj hprev hsucc
    have hplanlen : (attempt_plan_of prompt base (m :: ms)).length =
        3 + (attempt_plan_of prompt base ms).length := by
      rw [attempt_plan_of_cons, List.length_append, length_para_calls]
    have hparalen : (paraphrases).length = 3 := by simp [paraphrases]
    rw [Nat.lt_min, hplanlen] at hj
    by_cases hjc : j < 3
    · -- success inside this model's paraphrases
      have hinner := runPara_success O prompt base m N paraphrases st j t
        (by rw [Nat.lt_min, hparalen]; exact ⟨hjc, hj.2⟩) hprev hsucc
      refine ⟨st.attempt + j + 1, ?_⟩
      simp only [runModels, hinner]
      rw [Sum.inr.injEq, Prod.mk.injEq, LoopState.mk.injEq]
      refine ⟨rfl, rfl, ?_⟩
      rw [attempt_plan_of_cons, List.take_append_eq_append_take, List.length_map,
        hparalen]
      have h0 : j + 1 - 3 = 0 := by omega
      rw [h0, List.take_zero, List.append_nil]
    · -- this model's three attempts all fail, recurse
      have hc : 3 ≤ N - st.attempt := by omega
      have hinnerhyp : ∀ i, i < min (paraphrases).length (N - st.attempt) →
          stepResult (O (st.calls.length + i)) = none := by
        intro i hi
        rw [Nat.lt_min, hparalen] at hi
        exact hprev i (by omega)
      have hinner := runPara_nofail O prompt base m N paraphrases st hinnerhyp
      rw [hparalen, if_pos hc] at hinner
      have htake : ((paraphrases).map (mkCall prompt base m)).take (N - st.attempt) =
          (paraphrases).map (mkCall prompt base m) :=
        List.take_of_length_le (by rw [List.length_map, hparalen]; exact hc)
      rw [htake] at hinner
      have hlen1 : (st.calls ++ (paraphrases).map (mkCall prompt base m)).length =
          st.calls.length + 3 := by
        rw [List.length_append, List.length_map, hparalen]
      have hjrec : j - 3 < min (attempt_plan_of prompt base ms).length
          (N - (st.attempt + 3)) := by
        rw [Nat.lt_min]
        omega
      have hprevrec : ∀ i, i < j - 3 →
          stepResult (O ((st.calls ++ (paraphrases).map (mkCall prompt base m)).length + i))
            = none := by
        intro i hi
        rw [hlen1]
        have hstep := hprev (3 + i) (by omega)
        have heqi : st.calls.length + 3 + i = st.calls.length + (3 + i) := by omega
        rw [heqi]
        exact hstep
      have hsuccrec : stepResult (O ((st.calls ++
          (paraphrases).map (mkCall prompt base m)).length + (j - 3))) = some t := by
        rw [hlen1]
        have heqi : st.calls.length + 3 + (j - 3) = st.calls.length + j := by omega
        rw [heqi]
        exact hsucc
      obtain ⟨a, heq⟩ := ih (LoopState.mk (st.attempt + 3)
          (st.calls ++ (paraphrases).map (mkCall prompt base m))) (j - 3) t
          hjrec hprevrec hsuccrec
      dsimp only at heq
      refine ⟨a, ?_⟩
      simp only [runModels, hinner]
      rw [heq]
      rw [Sum.inr.injEq, Prod.mk.injEq, LoopState.mk.injEq]
      refine ⟨rfl, rfl, ?_⟩
      rw [attempt_plan_of_cons, List.take_append_eq_append_take, List.length_map,
        hparalen, List.append_assoc]
      have htk : (paraphrases.map (mkCall prompt base m)).take (j + 1) =
          paraphrases.map (mkCall prompt base m) :=
        List.take_of_length_le (by rw [List.length_map, hparalen]; omega)
      rw [htk]
      have heqj : j - 3 + 1 = j + 1 - 3 := by omega
      rw [heqj]

/-- Unfolding equation for `kellyRun` with the `let` reduced. -/
theorem kellyRun_eq (O : Nat → Outcome) (unescape : Str → Str)
    (prompt model_name : Str) (N : Nat) :
    kellyRun O unescape prompt model_name N =
      (match runModels O prompt (base_prompt_of prompt) N (model_attempts_of model_name)
          (LoopState.mk 0 []) with
       | Sum.inr (t, st) => RunResult.mk t Source.gemini st.calls
       | Sum.inl st =>
         RunResult.mk (local_poem_fallback unescape prompt) Source.fallback st.calls) := rfl

/-- The attempt plan has three entries per model: three for one model, six
for two. -/
theorem attempt_plan_length (prompt model_name : Str) :
    (attempt_plan prompt model_name).length = 3 ∨
      (attempt_plan prompt model_name).length = 6 := by
  unfold attempt_plan model_attempts_of
  by_cases hf : pySubstr (("flash").toList) model_name
  · left
    rw [if_pos hf]
    simp [attempt_plan_of, paraphrases]
  · right
    rw [if_neg hf]
    simp [attempt_plan_of, paraphrases]

/-- A successful step comes from a response whose extracted text is truthy. -/
theorem stepResult_some {o : Outcome} {t : Str} (h : stepResult o = some t) :
    ∃ r, o = Outcome.ok r ∧ extract_text_from_response r = some t ∧ t ≠ [] := by
  cases o with
  | exc => simp [stepResult] at h
  | ok r =>
    refine ⟨r, rfl, ?_⟩
    simp only [stepResult] at h
    cases hx : extract_text_from_response r with
    | none => rw [hx] at h; exact absurd h (by simp)
    | some u =>
      rw [hx] at h
      dsimp only at h
      by_cases hu : u = []
      · rw [if_pos hu] at h
        exact absurd h (by simp)
      · rw [if_neg hu] at h
        rw [Option.some_inj] at h
        subst h
        exact ⟨rfl, hu⟩

/-- Any success exit of the inner loop carries the stripped text of some
successful step. -/
theorem runPara_inr (O : Nat → Outcome) (prompt base m : Str) (N : Nat) :
    ∀ (fs : List (Str → Str)) (st : LoopState) (txt : Str) (st' : LoopState),
      runParaphrases O prompt base m N fs st = Sum.inr (txt, st') →
      ∃ k t, stepResult (O k) = some t ∧ txt = pyStrip t := by
  intro fs
  induction fs with
  | nil =>
    intro st txt st' h
    exact absurd h (by simp [runParaphrases])
  | cons f fs ih =>
    intro st txt st' h
    simp only [runParaphrases] at h
    by_cases hbr : N < st.attempt + 1
    · rw [if_pos hbr] at h
      exact absurd h (by simp)
    · rw [if_neg hbr] at h
      cases hs : stepResult (O st.calls.length) with
      | some t =>
        rw [hs] at h
        rw [Sum.inr.injEq, Prod.mk.injEq] at h
        exact ⟨st.calls.length, t, hs, h.1.symm⟩
      | none =>
        rw [hs] at h
        exact ih _ _ _ h

/-- Any success exit of the outer loop carries the stripped text of some
successful step. -/
theorem runModels_inr (O : Nat → Outcome) (prompt base : Str) (N : Nat) :
    ∀ (ms : List Str) (st : LoopState) (txt : Str) (st' : LoopState),
      runModels O prompt base N ms st = Sum.inr (txt, st') →
      ∃ k t, stepResult (O k) = some t ∧ txt = pyStrip t := by
  intro ms
  induction ms with
  | nil =>
    intro st txt st' h
    exact absurd h (by simp [runModels])
  | cons m ms ih =>
    intro st txt st' h
    simp only [runModels] at h
    cases hp : runParaphrases O prompt base m N paraphrases st with
    | inl st1 =>
      rw [hp] at h
      exact ih _ _ _ h
    | inr res =>
      rw [hp] at h
      rw [Sum.inr.injEq] at h
      subst h
      exact runPara_inr O prompt base m N paraphrases st txt st' hp

/-- The number of remote invocations never exceeds the attempt budget. -/
theorem kellyRun_calls_le (O : Nat → Outcome) (unescape : Str → Str)
    (prompt model_name : Str) (N : Nat) :
    (kellyRun O unescape prompt model_name N).calls.length ≤ N := by
  classical
  by_cases hall : ∀ i, i < min (attempt_plan prompt model_name).length (N - 0) →
      stepResult (O i) = none
  · obtain ⟨a, heq, -⟩ := runModels_nofail O prompt (base_prompt_of prompt) N
      (model_attempts_of model_name) (LoopState.mk 0 [])
      (fun i hi => by simpa using hall i (by simpa using hi))
    rw [kellyRun_eq, heq]
    dsimp only
    rw [List.nil_append, List.length_take]
    omega
  · push_neg at hall
    obtain ⟨i0, hi0, hP0⟩ := hall
    have hex : ∃ k, stepResult (O k) ≠ none := ⟨i0, hP0⟩
    have hjP : stepResult (O (Nat.find hex)) ≠ none := Nat.find_spec hex
    have hjmin : ∀ k, k < Nat.find hex → stepResult (O k) = none :=
      fun k hk => of_not_not (Nat.find_min hex hk)
    have hjle : Nat.find hex ≤ i0 := Nat.find_min' hex hP0
    have hj : Nat.find hex < min (attempt_plan prompt model_name).length (N - 0) :=
      lt_of_le_of_lt hjle hi0
    obtain ⟨t, ht⟩ := Option.ne_none_iff_exists'.1 hjP
    obtain ⟨a, heq⟩ := runModels_success O prompt (base_prompt_of prompt) N
      (model_attempts_of model_name) (LoopState.mk 0 []) (Nat.find hex) t
      (by simpa using hj) (fun i hi => by simpa using hjmin i hi) (by simpa using ht)
    rw [kellyRun_eq, heq]
    dsimp only
    rw [List.nil_append, List.length_take]
    rw [Nat.lt_min] at hj
    omega

/-! ## Claim theorems -/

/-- Unfolding equation for `local_poem_fallback` with the `let`s reduced. -/
theorem local_poem_fallback_eq (unescape : Str → Str) (prompt : Str) :
    local_poem_fallback unescape prompt =
      pyJoin (("\n").toList)
        (if (pySplit (poem_p unescape prompt)).length ≤ 3
         then (poemLines (poem_topic unescape prompt)).take 4
         else poemLines (poem_topic unescape prompt)) := rfl

/-- C1 (amended): `local_poem_fallback` is total and always returns a
non-empty string; it consists of exactly 4 or 6 lines whenever the unescaped
input contains no newline character (a newline inside the derived topic is
copied into the first line, adding lines). -/
theorem claim_C1 (unescape : Str → Str) (prompt : Str) :
    local_poem_fallback unescape prompt ≠ [] ∧
    (('\n' : Char) ∉ unescape prompt →
      lineCount (local_poem_fallback unescape prompt) = 4 ∨
      lineCount (local_poem_fallback unescape prompt) = 6) := by
  refine ⟨local_poem_fallback_ne_nil unescape prompt, ?_⟩
  intro h
  have htopic := poem_topic_count_nl h
  rw [local_poem_fallback_eq]
  by_cases hc : (pySplit (poem_p unescape prompt)).length ≤ 3
  · rw [if_pos hc]
    exact Or.inl (lineCount_poem_four htopic)
  · rw [if_neg hc]
    exact Or.inr (lineCount_poem_six htopic)

/-- C1 witness: the empty prompt (on which `html.unescape` is the identity)
gives a non-empty 4-line poem. -/
theorem claim_C1_witness :
    local_poem_fallback id ([]) ≠ [] ∧
    (lineCount (local_poem_fallback id ([])) = 4 ∨
      lineCount (local_poem_fallback id ([])) = 6) :=
  ⟨(claim_C1 id []).1, (claim_C1 id []).2 (by decide)⟩

/-- C1 counterexample: the ampersand-free input `"a\nb c d"` (on which
`html.unescape` is the identity) yields a 7-line result, refuting the
unconditional 4-or-6-line guarantee. -/
theorem claim_C1_cex :
    lineCount (local_poem_fallback id (("a\nb c d").toList)) = 7 ∧
    lineCount (local_poem_fallback id (("a\nb c d").toList)) ≠ 4 ∧
    lineCount (local_poem_fallback id (("a\nb c d").toList)) ≠ 6 := by
  decide

/-- C6 (amended): provided the unescaped input contains no newline, the poem
has exactly 4 lines iff the unescaped trimmed input has at most 3
whitespace-separated tokens, and exactly 6 lines otherwise. -/
theorem claim_C6 (unescape : Str → Str) (prompt : Str)
    (h : ('\n' : Char) ∉ unescape prompt) :
    (lineCount (local_poem_fallback unescape prompt) = 4 ↔
      (pySplit (poem_p unescape prompt)).length ≤ 3) ∧
    (lineCount (local_poem_fallback unescape prompt) = 6 ↔
      ¬ (pySplit (poem_p unescape prompt)).length ≤ 3) := by
  have htopic := poem_topic_count_nl h
  rw [local_poem_fallback_eq]
  by_cases hc : (pySplit (poem_p unescape prompt)).length ≤ 3
  · rw [if_pos hc, lineCount_poem_four htopic]
    exact ⟨⟨fun _ => hc, fun _ => rfl⟩,
      ⟨fun h46 => absurd h46 (by omega), fun hnc => absurd hc hnc⟩⟩
  · rw [if_neg hc, lineCount_poem_six htopic]
    exact ⟨⟨fun h64 => absurd h64 (by omega), fun hc3 => absurd hc3 hc⟩,
      ⟨fun _ => hc, fun _ => rfl⟩⟩

/-- C6 witness: `"AI"` has one token and yields exactly 4 lines. -/
theorem claim_C6_witness :
    (lineCount (local_poem_fallback id (("AI").toList)) = 4 ↔
      (pySplit (poem_p id (("AI").toList))).length ≤ 3) ∧
    (lineCount (local_poem_fallback id (("AI").toList)) = 6 ↔
      ¬ (pySplit (poem_p id (("AI").toList))).length ≤ 3) :=
  claim_C6 id (("AI").toList) (by decide)

/-- C6 counterexample: `"a\nb"` has 2 (≤ 3) tokens yet the result has 5
lines, not 4, because the newline inside the topic adds a line. -/
theorem claim_C6_cex :
    (pySplit (poem_p id (("a\nb").toList))).length ≤ 3 ∧
    lineCount (local_poem_fallback id (("a\nb").toList)) ≠ 4 := by
  decide

/-- C7 (amended): for `"Explain the pipeline of a GAN"` the derived topic is
`"the  a GAN"` — with two consecutive spaces, since removing `"pipeline of"`
leaves both surrounding spaces — and the 6-line poem begins
`"In careful lines I study the  a GAN,"`. -/
theorem claim_C7 :
    poem_topic id (("Explain the pipeline of a GAN").toList) = ("the  a GAN").toList ∧
    lineCount (local_poem_fallback id (("Explain the pipeline of a GAN").toList)) = 6 ∧
    (("In careful lines I study the  a GAN,").toList).isPrefixOf
      (local_poem_fallback id (("Explain the pipeline of a GAN").toList)) = true := by
  decide

/-- C7 counterexample: the topic of `"Explain the pipeline of a GAN"` is not
the single-spaced `"the a GAN"`, and the poem does not begin with the
single-spaced line claimed. -/
theorem claim_C7_cex :
    poem_topic id (("Explain the pipeline of a GAN").toList) ≠ ("the a GAN").toList ∧
    (("In careful lines I study the a GAN,").toList).isPrefixOf
      (local_poem_fallback id (("Explain the pipeline of a GAN").toList)) = false := by
  decide

/-- C4 (amended): when every part text is empty, absent, or whitespace-only,
the extractor returns `none` exactly when no part text is truthy — in
particular for zero candidates, or when all texts are absent or empty — and
returns `some ""` (the empty string, not `none`) when some part text is a
non-empty whitespace-only string. -/
theorem claim_C4 (r : Response)
    (h : ∀ c ∈ r.candidates, ∀ p ∈ c.content.elim ([] : List ResponsePart) Content.parts,
      ∀ ch ∈ p.text.getD [], isPyWs ch) :
    (extract_text_from_response r = none ↔ response_texts r = []) ∧
    (response_texts r ≠ [] → extract_text_from_response r = some []) := by
  have hws : ∀ t ∈ response_texts r, ∀ ch ∈ t, isPyWs ch := by
    apply response_texts_all_ws
    intro c hc ct hct p hp t ht ch hch
    have hp' : p ∈ c.content.elim ([] : List ResponsePart) Content.parts := by
      rw [hct]
      exact hp
    have hch' : ch ∈ p.text.getD [] := by
      rw [ht]
      exact hch
    exact h c hc p hp' ch hch'
  exact ⟨extract_none_iff, extract_all_ws_some hws⟩

/-- C4 witness: the whitespace-only single-part response satisfies the
hypothesis; its collected texts are non-empty, so the extractor returns
`some ""`, while the `none` characterization holds as the iff. -/
theorem claim_C4_witness :
    (extract_text_from_response whitespaceResponse = none ↔
      response_texts whitespaceResponse = []) ∧
    extract_text_from_response whitespaceResponse = some [] :=
  ⟨(claim_C4 whitespaceResponse (by decide)).1,
   (claim_C4 whitespaceResponse (by decide)).2 (by decide)⟩

/-- C4 counterexample: a candidate whose only part text is `" "` (non-empty,
whitespace-only) makes the extractor return `some ""`, not `none`. -/
theorem claim_C4_cex :
    extract_text_from_response whitespaceResponse ≠ none ∧
    extract_text_from_response whitespaceResponse = some [] := by
  decide

/-- C5: whenever some part carries non-empty text, the extractor returns the
newline-join of the trimmed texts of all parts whose trimmed text is
non-empty, in candidate order then part order (and never raises: it is a
total function of the `Option`-modelled nesting). -/
theorem claim_C5 (r : Response) (h : response_texts r ≠ []) :
    extract_text_from_response r =
      some (pyJoin (("\n").toList)
        (((response_texts r).filter (fun p => pyStrip p ≠ [])).map pyStrip)) := by
  rw [extract_eq, if_neg h]

/-- C5 witness: a response with a to-trim part, an empty part, an absent
text, an absent content and a second candidate joins to
`"First part\nsecond"`, preserving order. -/
theorem claim_C5_witness :
    response_texts sampleResponse ≠ [] ∧
    extract_text_from_response sampleResponse =
      some (pyJoin (("\n").toList)
        (((response_texts sampleResponse).filter (fun p => pyStrip p ≠ [])).map pyStrip)) ∧
    extract_text_from_response sampleResponse = some (("First part\nsecond").toList) :=
  ⟨by decide, claim_C5 sampleResponse (by decide), by decide⟩

/-- C2: the Reply Controller performs at most `N` remote invocations for any
oracle; a raising attempt consumes exactly one slot (it is one oracle index),
and with `N = 3` and every attempt failing to yield text, exactly 3 remote
invocations happen and the result is tagged fallback. -/
theorem claim_C2 (O : Nat → Outcome) (unescape : Str → Str)
    (prompt model_name : Str) (N : Nat) (hN : 1 ≤ N) :
    (kellyRun O unescape prompt model_name N).calls.length ≤ N ∧
    (N = 3 → (∀ k, stepResult (O k) = none) →
      (kellyRun O unescape prompt model_name N).calls.length = 3 ∧
      (kellyRun O unescape prompt model_name N).source = Source.fallback) := by
  refine ⟨kellyRun_calls_le O unescape prompt model_name N, ?_⟩
  intro h3 hfail
  subst h3
  obtain ⟨a, heq, -⟩ := runModels_nofail O prompt (base_prompt_of prompt) 3
    (model_attempts_of model_name) (LoopState.mk 0 [])
    (fun i _ => by simpa using hfail i)
  rw [kellyRun_eq, heq]
  dsimp only
  refine ⟨?_, rfl⟩
  rw [List.nil_append, List.length_take]
  have hl : (attempt_plan_of prompt (base_prompt_of prompt)
      (model_attempts_of model_name)).length = 3 ∨
      (attempt_plan_of prompt (base_prompt_of prompt)
        (model_attempts_of model_name)).length = 6 :=
    attempt_plan_length prompt model_name
  omega

/-- C2 witness: with every invocation raising, `N = 3` and a non-flash
preferred model, exactly 3 invocations happen before the fallback. -/
theorem claim_C2_witness :
    (kellyRun oracleExc id (("hello world").toList) FALLBACK_MODEL 3).calls.length ≤ 3 ∧
    ((kellyRun oracleExc id (("hello world").toList) FALLBACK_MODEL 3).calls.length = 3 ∧
     (kellyRun oracleExc id (("hello world").toList) FALLBACK_MODEL 3).source =
       Source.fallback) :=
  ⟨(claim_C2 oracleExc id (("hello world").toList) FALLBACK_MODEL 3 (by decide)).1,
   (claim_C2 oracleExc id (("hello world").toList) FALLBACK_MODEL 3 (by decide)).2
     rfl (fun _ => rfl)⟩

/-- C3: if the first `j` invocations fail and invocation `j` (within the
budget and the plan) extracts truthy text `t`, the controller returns at
once: the result is tagged remote (`"gemini"`), its text is the stripped
`t`, and exactly `j + 1` remote invocations were performed. -/
theorem claim_C3 (O : Nat → Outcome) (unescape : Str → Str)
    (prompt model_name : Str) (N j : Nat) (t : Str)
    (hj : j < min N (attempt_plan prompt model_name).length)
    (hprev : ∀ i, i < j → stepResult (O i) = none)
    (hsucc : stepResult (O j) = some t) :
    (kellyRun O unescape prompt model_name N).source = Source.gemini ∧
    (kellyRun O unescape prompt model_name N).text = pyStrip t ∧
    (kellyRun O unescape prompt model_name N).calls.length = j + 1 := by
  rw [Nat.lt_min] at hj
  have hjplan : j < (attempt_plan_of prompt (base_prompt_of prompt)
      (model_attempts_of model_name)).length := hj.2
  obtain ⟨a, heq⟩ := runModels_success O prompt (base_prompt_of prompt) N
    (model_attempts_of model_name) (LoopState.mk 0 []) j t
    (by rw [Nat.lt_min]; dsimp only; exact ⟨hjplan, by omega⟩)
    (fun i hi => by simpa using hprev i hi)
    (by simpa using hsucc)
  rw [kellyRun_eq, heq]
  dsimp only
  refine ⟨rfl, rfl, ?_⟩
  rw [List.nil_append, List.length_take]
  omega

/-- C3 witness: an oracle whose first invocation already yields a truthy
text makes the run return remote-tagged with one single invocation. -/
theorem claim_C3_witness :
    (kellyRun oracleOk id (("What is attention?").toList) DEFAULT_MODEL 3).source =
      Source.gemini ∧
    (kellyRun oracleOk id (("What is attention?").toList) DEFAULT_MODEL 3).text =
      pyStrip (("A measured stanza").toList) ∧
    (kellyRun oracleOk id (("What is attention?").toList) DEFAULT_MODEL 3).calls.length =
      0 + 1 :=
  claim_C3 oracleOk id (("What is attention?").toList) DEFAULT_MODEL 3 0
    (("A measured stanza").toList) (by decide)
    (fun i hi => absurd hi (by omega)) (by decide)

/-- C8: the model list is the preferred model, plus the canonical fast model
`"models/gemini-flash-latest"` exactly when the preferred identifier does not
contain the marker `"flash"`; the attempt plan is the model-major flattening
of models × the three fixed paraphrases; and (shown here for runs with no
successful invocation, which exercise the whole loop) the executed calls are
precisely the first `N` planned calls, in plan order. -/
theorem claim_C8 (O : Nat → Outcome) (unescape : Str → Str)
    (prompt model_name : Str) (N : Nat)
    (hfail : ∀ k, stepResult (O k) = none) :
    (kellyRun O unescape prompt model_name N).calls =
      (attempt_plan prompt model_name).take N ∧
    attempt_plan prompt model_name =
      attempt_plan_of prompt (base_prompt_of prompt) (model_attempts_of model_name) ∧
    model_attempts_of model_name =
      (if pySubstr (("flash").toList) model_name then [model_name]
       else [model_name, ("models/gemini-flash-latest").toList]) := by
  refine ⟨?_, rfl, rfl⟩
  obtain ⟨a, heq, -⟩ := runModels_nofail O prompt (base_prompt_of prompt) N
    (model_attempts_of model_name) (LoopState.mk 0 [])
    (fun i _ => by simpa using hfail i)
  rw [kellyRun_eq, heq]
  dsimp only
  rw [List.nil_append, Nat.sub_zero]
  rfl

/-- C8 witness: a non-flash preferred model with budget 4 executes the first
four planned calls: all three paraphrases on the preferred model, then the
identity paraphrase on the fast model. -/
theorem claim_C8_witness :
    (kellyRun oracleExc id (("Explain GANs").toList) FALLBACK_MODEL 4).calls =
      (attempt_plan (("Explain GANs").toList) FALLBACK_MODEL).take 4 ∧
    attempt_plan (("Explain GANs").toList) FALLBACK_MODEL =
      attempt_plan_of (("Explain GANs").toList)
        (base_prompt_of (("Explain GANs").toList)) (model_attempts_of FALLBACK_MODEL) ∧
    model_attempts_of FALLBACK_MODEL =
      (if pySubstr (("flash").toList) FALLBACK_MODEL then [FALLBACK_MODEL]
       else [FALLBACK_MODEL, ("models/gemini-flash-latest").toList]) :=
  claim_C8 oracleExc id (("Explain GANs").toList) FALLBACK_MODEL 4 (fun _ => rfl)

set_option maxRecDepth 8000 in
/-- C9, failing input: with prompt `"poem"`, the outbound text of the second
attempt (the append-suffix paraphrase) is not the persona preamble followed
by the paraphrased prompt: the composition `base_prompt.replace(prompt, q)`
also rewrites the occurrence of `"poem"` inside the preamble sentence
"Answer in the form of a short poem.".  The generation parameters, in
contrast, are exactly as specified. -/
theorem claim_C9_bug :
    ((kellyRun oracleExc id (("poem").toList) DEFAULT_MODEL 3).calls.map
        CallRecord.sent).get? 1 ≠
      some (pyStrip KELLY_SYSTEM_PROMPT ++ ("\n\nUser: ").toList ++
        (("poem").toList ++
          (" Please explain step by step and include practical suggestions.").toList) ++
        ("\nKelly:").toList) ∧
    (kellyRun oracleExc id (("poem").toList) DEFAULT_MODEL 3).calls.length = 3 ∧
    generation_config = GenerationConfig.mk 0.45 400 0.9 :=
  ⟨by decide, by decide, rfl⟩

/-- C10: every result of the controller carries non-empty text — the remote
branch returns a stripped truthy extraction, which is non-empty, and the
fallback branch returns the never-empty local poem. -/
theorem claim_C10 (O : Nat → Outcome) (unescape : Str → Str)
    (prompt model_name : Str) (N : Nat) :
    (kellyRun O unescape prompt model_name N).text ≠ [] := by
  rw [kellyRun_eq]
  cases hr : runModels O prompt (base_prompt_of prompt) N
      (model_attempts_of model_name) (LoopState.mk 0 []) with
  | inl st =>
    dsimp only
    exact local_poem_fallback_ne_nil unescape prompt
  | inr res =>
    obtain ⟨txt, st⟩ := res
    dsimp only
    obtain ⟨k, t, hstep, htxt⟩ := runModels_inr O prompt (base_prompt_of prompt) N
      (model_attempts_of model_name) (LoopState.mk 0 []) txt st hr
    obtain ⟨r, -, hex, htne⟩ := stepResult_some hstep
    rw [htxt]
    exact extract_some_strip_ne_nil hex htne
